import Mathlib

/-!
Verification development for the discrete-time neural simulation engine
described by this repository's specification.  The repository itself ships
only example notebooks (a communication channel and an ensemble array); the
engine they invoke is specified in `spec.md`.  Every definition below that
embeds engine behaviour is therefore modelled from the specification text
and carries a doc comment saying so.

Scalars are rational numbers.  All arithmetic used inside executable
definitions goes through kernel-reducible wrappers (`qAdd`, `qSub`, `qMul`,
`qDiv`) built on `mkRat` / `Rat.divInt`, so that concrete simulations can be
evaluated by `rfl` and `decide`; the lemmas `qAdd_eq` … `qDiv_eq` identify
them with the field operations of `ℚ` for algebraic reasoning.
-/

namespace NengoSpec

/-- Addition on `ℚ` via `mkRat`, definitionally reducible in the kernel. -/
def qAdd (a b : ℚ) : ℚ := mkRat (a.num * b.den + b.num * a.den) (a.den * b.den)

/-- Subtraction on `ℚ` via `mkRat`, definitionally reducible in the kernel. -/
def qSub (a b : ℚ) : ℚ := mkRat (a.num * b.den - b.num * a.den) (a.den * b.den)

/-- Multiplication on `ℚ` via `mkRat`, definitionally reducible in the kernel. -/
def qMul (a b : ℚ) : ℚ := mkRat (a.num * b.num) (a.den * b.den)

/-- Division on `ℚ` via `Rat.divInt`, definitionally reducible in the kernel. -/
def qDiv (a b : ℚ) : ℚ := Rat.divInt (a.num * b.den) (a.den * b.num)

/-- Vectors are finite lists of rationals. -/
abbrev Vec := List ℚ

/-- Matrices are lists of row vectors. -/
abbrev Mat := List Vec

/-- The all-zero vector of a given length. -/
def zeroVec (n : ℕ) : Vec := List.replicate n 0

/-- Componentwise vector addition (truncating to the shorter operand). -/
def vAdd (u v : Vec) : Vec := List.zipWith qAdd u v

/-- Componentwise vector subtraction. -/
def vSub (u v : Vec) : Vec := List.zipWith qSub u v

/-- Scalar multiple of a vector. -/
def vSmul (a : ℚ) (v : Vec) : Vec := v.map (fun z => qMul a z)

/-- Dot product of two vectors. -/
def dotV (u v : Vec) : ℚ := (List.zipWith qMul u v).foldr qAdd 0

/-- Matrix–vector product: one dot product per row. -/
def matVec (M : Mat) (v : Vec) : Vec := M.map (fun r => dotV r v)

/-- Transpose of a matrix (rows become columns). -/
def transposeM (M : Mat) : Mat :=
  (List.range (M.headD []).length).map (fun j => M.map (fun r => r.getD j 0))

/-- Matrix product. -/
def matMul (A B : Mat) : Mat :=
  A.map (fun r => (transposeM B).map (fun col => dotV r col))

/-- Componentwise matrix addition. -/
def matAdd (A B : Mat) : Mat := List.zipWith vAdd A B

/-- Scalar multiple of a matrix. -/
def matSmul (a : ℚ) (M : Mat) : Mat := M.map (vSmul a)

/-- The `n × n` identity matrix. -/
def idMat (n : ℕ) : Mat :=
  (List.range n).map (fun i => (List.range n).map (fun j => if i = j then (1 : ℚ) else 0))

/-- The `r × c` zero matrix. -/
def zeroMat (r c : ℕ) : Mat := List.replicate r (zeroVec c)

/-- Round a rational to the nearest natural number of steps (ties upward,
negative values clamp to zero): `⌊q + 1/2⌋` computed with integer euclidean
division so that it reduces in the kernel. -/
def natRound (q : ℚ) : ℕ := ((2 * q.num + q.den) / (2 * (q.den : ℤ))).toNat

/-! ## Linear equation solving

`gaussSolve` performs Gauss–Jordan elimination with an explicit variable
count; `linSolve` wraps it and keeps a result only after re-checking
`M · X = B`, so every solution it returns is certified by construction. -/

/-- One step of Gaussian elimination on the augmented rows, recursing on the
number of remaining variables.  Rows have length `vars + k` where `k` is the
number of right-hand sides; the result has one solution row per variable. -/
def gaussSolve : ℕ → Mat → Option Mat
  | 0, rows => if rows.isEmpty then some [] else none
  | n + 1, rows =>
    match rows.findIdx? (fun r => r.headD 0 != 0) with
    | none => none
    | some i =>
      let piv := rows.getD i []
      let a := piv.headD 0
      let pn := piv.map (fun z => qDiv z a)
      let rest := (rows.eraseIdx i).map
        (fun r => List.zipWith qSub r (pn.map (fun z => qMul (r.headD 0) z)))
      match gaussSolve n (rest.map (fun r => r.drop 1)) with
      | none => none
      | some sol =>
        let tail := pn.drop 1
        let coeffs := tail.take n
        let rhs := tail.drop n
        let corr := (List.zipWith (fun cf row => vSmul cf row) coeffs sol).foldl
          vAdd (zeroVec rhs.length)
        some ((vSub rhs corr) :: sol)

/-- Solve `M · X = B` for the matrix `X`; any returned solution has been
checked against the equation, so `linSolve M B = some X → matMul M X = B`. -/
def linSolve (M B : Mat) : Option Mat :=
  match gaussSolve M.length (List.zipWith (· ++ ·) M B) with
  | none => none
  | some X => if matMul M X = B then some X else none

/-! ## Data model

Modelled from the spec, section 3 (DATA MODEL): populations, connections,
nodes, probes, and the network that owns them.  The engine implementation is
absent from this repository, so each record follows the specification's
field list. -/

/-- Modelled from the spec: a signal source is either an external `Node` or a
`Population`, addressed by position in the owning network's list. -/
inductive Src where
  | node : ℕ → Src
  | pop : ℕ → Src
  deriving DecidableEq

/-- Modelled from the spec: a `Population` is `{dimension D, neuron_count N,
encoders : N×D matrix}`.  `encoders = none` means "drawn from the seeded
generator at build time" (spec sections 3 and 9; the spec's uniform unit
hypersphere is modelled by signed one-hot unit rows, which keeps rows
unit-norm while staying in `ℚ`).  Per-neuron gain/bias calibration is
modelled by the deterministic `biasOf` spread below. -/
structure Population where
  neuronCount : ℕ
  dimension : ℕ
  encoders : Option Mat := none

/-- Modelled from the spec: a `Node` is `{function : time → vector,
dimension}`, a source of an externally defined time-varying signal. -/
structure Node where
  dimension : ℕ
  output : ℚ → Vec

/-- Modelled from the spec (implicit in the notebooks' `nengo.Node(np.sin)`):
a node built from an output function alone infers its dimension from the
function's return value. -/
def mkNode (f : ℚ → Vec) : Node :=
  { dimension := (f 0).length, output := f }

/-- Modelled from the spec: a `Connection` is `{source, destination,
transform (default identity), function : optional nonlinear map with its
declared output dimensionality, synapse_time_constant}`.  `synapse = 0`
means pass-through.  The destination is a population index. -/
structure Connection where
  source : Src
  dest : ℕ
  transform : Mat
  fn : Option (ℕ × (Vec → Vec)) := none
  synapse : ℚ := mkRat 5 1000

/-- Modelled from the spec: a `Probe` is a read tap on a signal with its own
optional synaptic filter. -/
structure Probe where
  target : Src
  synapse : ℚ := 0

/-- Modelled from the spec: a `Network` owns all populations, connections,
nodes and probes created within its construction scopes. -/
structure Network where
  populations : List Population := []
  nodes : List Node := []
  connections : List Connection := []
  probes : List Probe := []

/-- Modelled from the spec: network construction is incremental — components
such as probes may still be added to a `Network` after earlier construction
scopes have exited, as the notebooks do with `with model:` blocks. -/
def addProbe (net : Network) (t : Src) (syn : ℚ) : Network :=
  { net with probes := net.probes ++ [{ target := t, synapse := syn }] }

/-- Modelled from the spec, section 7: build-time failures. -/
inductive BuildError where
  | dimMismatch
  | invalidParam
  deriving DecidableEq

/-- Modelled from the spec, section 7: failures surfaced by `run`.  The
`dimMismatch` constructor exists only to state that it is never produced at
run time. -/
inductive RunError where
  | invalidDuration
  | dimMismatch
  deriving DecidableEq

/-- Modelled from the spec, section 7: `RuntimeNumericWarning`, the
non-fatal warning for ill-conditioned decoder solves. -/
inductive SimWarning where
  | numeric
  deriving DecidableEq

/-- Fallback population for total list indexing. -/
def defPop : Population := { neuronCount := 0, dimension := 0 }

/-- Fallback node for total list indexing. -/
def defNode : Node := { dimension := 0, output := fun _ => [] }

/-- Fallback connection for total list indexing. -/
def defConn : Connection := { source := Src.node 0, dest := 0, transform := [] }

/-- Fallback probe for total list indexing. -/
def defProbe : Probe := { target := Src.node 0 }

/-- Dimensionality of the signal emitted by a source. -/
def srcDim (net : Network) : Src → ℕ
  | Src.node i => (net.nodes.getD i defNode).dimension
  | Src.pop p => (net.populations.getD p defPop).dimension

/-- Dimensionality of a connection's pre-transform value: the declared
output dimensionality of its function if present, else the source's. -/
def connPreDim (net : Network) (c : Connection) : ℕ :=
  match c.fn with
  | some (k, _) => k
  | none => srcDim net c.source

/-! ## Build-time machinery

Modelled from the spec, sections 4.1 and 9: a seeded pseudo-random generator
is injected as an explicit dependency so that builds are reproducible given
a seed; decoders are solved once per (population, function) pair from
sampled activity by regularized least squares with ridge constant 0.1. -/

/-- Modelled from the spec, section 9: the injected seeded pseudo-random
generator, a linear congruential step. -/
def lcg (n : ℕ) : ℕ := (1664525 * n + 1013904223) % 4294967296

/-- Modelled from the spec: default encoders drawn from the seeded
generator — one signed one-hot unit row per neuron (unit L2 norm, staying
inside `ℚ`). -/
def defaultEncoders (seed N D : ℕ) : Mat :=
  (List.range N).map (fun i =>
    let r := lcg (seed + i)
    let axis := r % D
    let sgn : ℚ := if (r / D) % 2 = 0 then 1 else mkRat (-1) 1
    (List.range D).map (fun k => if k = axis then sgn else 0))

/-- The encoder matrix a population uses: its own if supplied, otherwise the
seeded default. -/
def encOf (seed : ℕ) (p : Population) : Mat :=
  p.encoders.getD (defaultEncoders seed p.neuronCount p.dimension)

/-- Modelled from the spec: the per-neuron bias from the build-time
calibration, a deterministic spread of intercepts across `[-1, 1]`. -/
def biasOf (N i : ℕ) : ℚ := mkRat ((N : ℤ) - 1 - 2 * i) N

/-- Rectified output: the neuron's nonlinearity `f` in
`response(x) = f(gain·x + bias)` (spec section 3), modelled as a
rectified-linear rate. -/
def relu (q : ℚ) : ℚ := if q.num < 0 then 0 else q

/-- Modelled from the spec, section 4.1: each neuron's instantaneous drive
is `E[i]·x` plus its bias, converted to an activity by the response
function; the population's activity vector lists all `N` neuron rates. -/
def activityVec (E : Mat) (N : ℕ) (x : Vec) : Vec :=
  (List.range N).map (fun i => relu (qAdd (dotV (E.getD i []) x) (biasOf N i)))

/-- Modelled from the spec, section 4.1: the sampled representative input
points (points on and within the unit ball of dimension `D`). -/
def samplePoints (D : ℕ) : Vec → List Vec := fun z =>
  z :: (List.range D).foldr
    (fun j acc =>
      ((List.range D).map (fun k => if k = j then (1 : ℚ) else 0)) ::
      ((List.range D).map (fun k => if k = j then mkRat (-1) 1 else 0)) ::
      ((List.range D).map (fun k => if k = j then mkRat 1 2 else 0)) ::
      ((List.range D).map (fun k => if k = j then mkRat (-1) 2 else 0)) :: acc)
    []

/-- The sample set used by every decoder solve for dimension `D`. -/
def samplesFor (D : ℕ) : List Vec := samplePoints D (zeroVec D)

/-- Modelled from the spec, section 9: the ridge regularization constant
`λ = 0.1`. -/
def lamReg : ℚ := mkRat 1 10

/-- Modelled from the spec, section 4.1: solve the regularized least-squares
problem `minimize ‖Y - A·X‖² + λ‖X‖²` through its normal equations
`(AᵀA + λ·I) X = Aᵀ Y`, where `A` is the sampled activity matrix (M×N) and
`Y` the target function at the samples (M×D_out).  The returned `X` is
N×D_out; `linSolve` certifies the equation before returning. -/
def solveDec (A Y : Mat) (lam : ℚ) (n : ℕ) : Option Mat :=
  linSolve (matAdd (matMul (transposeM A) A) (matSmul lam (idMat n))) (matMul (transposeM A) Y)

/-- The sampled activity matrix of population `p` (M×N). -/
def designMat (net : Network) (seed : ℕ) (p : ℕ) : Mat :=
  let pop := net.populations.getD p defPop
  (samplesFor pop.dimension).map (fun x => activityVec (encOf seed pop) pop.neuronCount x)

/-- Modelled from the spec: `DecoderWeights`, the D_out×N matrix solved once
per (population, function) pair at build time.  If the certified solve
fails the zero matrix is used. -/
def solveForPop (net : Network) (seed : ℕ) (p : ℕ) (f : Vec → Vec) (dout : ℕ) : Mat :=
  let pop := net.populations.getD p defPop
  let A := designMat net seed p
  let Y := (samplesFor pop.dimension).map f
  match solveDec A Y lamReg pop.neuronCount with
  | some X => transposeM X
  | none => zeroMat dout pop.neuronCount

/-- The decoder matrix a connection uses: solved for the connection's
function when the source is a population, unused (empty) for node sources. -/
def decForConn (net : Network) (seed : ℕ) (c : Connection) : Mat :=
  match c.source with
  | Src.node _ => []
  | Src.pop p =>
    match c.fn with
    | some (k, f) => solveForPop net seed p f k
    | none => solveForPop net seed p (fun v => v) (srcDim net (Src.pop p))

/-- The identity-function decoder each population exposes to probes. -/
def decForPop (net : Network) (seed : ℕ) (p : ℕ) : Mat :=
  solveForPop net seed p (fun v => v) ((net.populations.getD p defPop).dimension)

/-- Modelled from the spec, section 7: build-time validation of population
parameters (`N ≥ 1`, `D ≥ 1`). -/
def popsOK (net : Network) : Bool :=
  net.populations.all (fun p => 1 ≤ p.neuronCount && 1 ≤ p.dimension)

/-- Modelled from the spec, sections 4.2 and 7: dimension consistency of
every connection — the transform's output dimensionality (row count) must
equal the destination's dimensionality, and its input dimensionality (row
length) the pre-transform value's. -/
def dimsOK (net : Network) : Bool :=
  net.connections.all (fun c =>
    (c.transform.length == (net.populations.getD c.dest defPop).dimension)
    && c.transform.all (fun r => r.length == connPreDim net c))

/-! ## Simulator

Modelled from the spec, section 4.4: the compiled execution plan plus all
per-component mutable state.  `build` enters `Built` once — validating the
network, resolving encoders, solving all decoders, allocating filter states
and probe buffers — and stepping mutates only the state fields. -/

/-- Modelled from the spec, sections 3 and 4.4: a `Simulator` owns one
compiled plan (`net`, `dt`, resolved encoders and decoders, warnings) for
exactly one network, current simulation time (as a completed step count),
and the per-instance synaptic filter states and probe buffers. -/
structure Simulator where
  net : Network
  dt : ℚ
  encs : List Mat
  connDec : List Mat
  popDec : List Mat
  warnings : List SimWarning
  time : ℕ
  connState : List Vec
  probeState : List Vec
  probeData : List (List Vec)

/-- The simulation time at which components are evaluated during the step
that brings the completed-step count from `s.time` to `s.time + 1`. -/
def stepTime (s : Simulator) : ℚ := qMul ((s.time + 1 : ℕ) : ℚ) s.dt

/-- Modelled from the spec, section 4.4 (`Running`): nodes are evaluated
first, at the current step's time. -/
def nodeValAt (s : Simulator) (i : ℕ) : Vec :=
  (s.net.nodes.getD i defNode).output (stepTime s)

/-- The dimensionality of the vector delivered by connection `c` (its
transform's row count). -/
def connOutDim (net : Network) (c : ℕ) : ℕ :=
  (net.connections.getD c defConn).transform.length

/-- Sum of the given per-connection values over all connections into
population `p` — the additive contributions of spec section 4.2. -/
def incomingSum (net : Network) (vals : List Vec) (p : ℕ) : Vec :=
  (List.range net.connections.length).foldl
    (fun acc c =>
      if (net.connections.getD c defConn).dest = p then vAdd acc (vals.getD c [])
      else acc)
    (zeroVec ((net.populations.getD p defPop).dimension))

/-- Modelled from the spec, section 4.4: each population's drive for the
current step is computed from the *prior* step's connection outputs — the
one-step-delayed feedback that breaks cycles. -/
def popDrive (s : Simulator) (p : ℕ) : Vec := incomingSum s.net s.connState p

/-- The activity (neuron rates) of population `p` during the current step,
from its drive. -/
def popAct (s : Simulator) (p : ℕ) : Vec :=
  activityVec (s.encs.getD p []) ((s.net.populations.getD p defPop).neuronCount) (popDrive s p)

/-- Modelled from the spec, section 4.2: the value a connection reads from
its source this step — a node's function at the current time (with the
connection's optional function applied), or the population's decoded output
for the connection's function. -/
def connSrcVal (s : Simulator) (c : ℕ) : Vec :=
  let cn := s.net.connections.getD c defConn
  match cn.source with
  | Src.node i =>
    let v := nodeValAt s i
    match cn.fn with
    | some (_, f) => f v
    | none => v
  | Src.pop p => matVec (s.connDec.getD c []) (popAct s p)

/-- The connection's post-transform, pre-filter value this step. -/
def connRaw (s : Simulator) (c : ℕ) : Vec :=
  matVec ((s.net.connections.getD c defConn).transform) (connSrcVal s c)

/-- Modelled from the spec, section 4.3: one step of the causal exponential
smoothing `y[t] = y[t-1] + (dt/tau) * (u[t] - y[t-1])`; `tau = 0` (or
unset) means pass-through with no filtering. -/
def filterApply (tau dt : ℚ) (y u : Vec) : Vec :=
  if tau = 0 then u else vAdd y (vSmul (qDiv dt tau) (vSub u y))

/-- The new state of connection `c`'s synaptic filter after the current
step, from its own previous state and this step's raw value. -/
def connNext (s : Simulator) (c : ℕ) : Vec :=
  filterApply ((s.net.connections.getD c defConn).synapse) s.dt (s.connState.getD c []) (connRaw s c)

/-- The value probe `q` taps this step (before its own filter). -/
def probeVal (s : Simulator) (q : ℕ) : Vec :=
  match (s.net.probes.getD q defProbe).target with
  | Src.node i => nodeValAt s i
  | Src.pop p => matVec (s.popDec.getD p []) (popAct s p)

/-- The new state of probe `q`'s synaptic filter after the current step. -/
def probeNext (s : Simulator) (q : ℕ) : Vec :=
  filterApply ((s.net.probes.getD q defProbe).synapse) s.dt (s.probeState.getD q []) (probeVal s q)

/-- Modelled from the spec, section 4.4 (`Running`): one fixed-`dt` step.
Nodes are evaluated at the current time; population drives come from the
prior step's connection outputs; populations update and emit activity;
connections update their filters from this step's source outputs; probes
record last.  Only the mutable state fields change. -/
def step (s : Simulator) : Simulator :=
  { s with
    time := s.time + 1
    connState := (List.range s.net.connections.length).map (connNext s)
    probeState := (List.range s.net.probes.length).map (probeNext s)
    probeData := (List.range s.net.probes.length).map
      (fun q => (s.probeData.getD q []) ++ [probeNext s q]) }

/-- Iterated stepping. -/
def stepN : ℕ → Simulator → Simulator
  | 0, s => s
  | n + 1, s => stepN n (step s)

/-- Modelled from the spec, sections 4.3 and 4.4: at run start every
synaptic filter state is reset to the zero vector, probe buffers are
cleared, and time restarts. -/
def resetSim (s : Simulator) : Simulator :=
  { s with
    time := 0
    connState := (List.range s.net.connections.length).map (fun c => zeroVec (connOutDim s.net c))
    probeState := (List.range s.net.probes.length).map
      (fun q => zeroVec (srcDim s.net ((s.net.probes.getD q defProbe).target)))
    probeData := List.replicate s.net.probes.length [] }

/-- Modelled from the spec, sections 6 and 7: `run(simulator, duration)`
advances the simulation by `duration` time units in `dt`-sized steps,
rounding the duration to the nearest step count (non-fatal); a non-positive
duration fails without touching the simulator. -/
def runT (s : Simulator) (dur : ℚ) : Simulator × Option RunError :=
  if dur ≤ 0 then (s, some RunError.invalidDuration)
  else (stepN (natRound (qDiv dur s.dt)) (resetSim s), none)

/-- Modelled from the spec, section 6: `trange(simulator)`, the ordered
sample times `dt, 2·dt, …` of the completed steps. -/
def trange (s : Simulator) : List ℚ :=
  (List.range s.time).map (fun i => qMul ((i + 1 : ℕ) : ℚ) s.dt)

/-- The warning list produced at build time (spec section 7): a
`RuntimeNumericWarning` for every population whose decoder solve is
ill-conditioned because `neuron_count ≤ dimension`. -/
def buildWarnings (net : Network) : List SimWarning :=
  net.populations.filterMap
    (fun p => if p.neuronCount ≤ p.dimension then some SimWarning.numeric else none)

/-- The simulator state produced by a successful build: resolved encoders,
all decoders solved once, warnings collected, zeroed filter states, empty
probe buffers, `dt = 0.001` (spec default). -/
def mkSim (net : Network) (seed : ℕ) : Simulator :=
  { net := net
    dt := mkRat 1 1000
    encs := (List.range net.populations.length).map
      (fun p => encOf seed (net.populations.getD p defPop))
    connDec := (List.range net.connections.length).map
      (fun c => decForConn net seed (net.connections.getD c defConn))
    popDec := (List.range net.populations.length).map (fun p => decForPop net seed p)
    warnings := buildWarnings net
    time := 0
    connState := (List.range net.connections.length).map (fun c => zeroVec (connOutDim net c))
    probeState := (List.range net.probes.length).map
      (fun q => zeroVec (srcDim net ((net.probes.getD q defProbe).target)))
    probeData := List.replicate net.probes.length [] }

/-- Modelled from the spec, sections 4.4, 6 and 7: `build(network)`
validates parameters and dimensions (raising `BuildError` at build, never
during run) and otherwise compiles the network into a `Simulator`. -/
def build (net : Network) (seed : ℕ) : Except BuildError Simulator :=
  if popsOK net then
    if dimsOK net then Except.ok (mkSim net seed)
    else Except.error BuildError.dimMismatch
  else Except.error BuildError.invalidParam

/-- The probe data produced by the whole build-and-run pipeline, as a
function of network, seed and duration. -/
def pipelineData (net : Network) (seed : ℕ) (dur : ℚ) : Except BuildError (List (List Vec)) :=
  Except.map (fun s => ((runT s dur).1).probeData) (build net seed)

/-! ## Concrete instances

Small fully concrete networks, used to instantiate the theorems below on
explicit inputs.  `demoNet` mirrors the communication-channel notebook in
miniature: an external node, a population fed by it, a recurrent
connection (a cycle, resolved by the one-step delay), and two probes. -/

/-- A concrete network: one node emitting `[t]`, one 1-D population of two
neurons, a pass-through connection from the node, a recurrent filtered
connection, and probes on the population (filtered) and node (raw). -/
def demoNet : Network :=
  { populations := [{ neuronCount := 2, dimension := 1 }]
    nodes := [mkNode (fun t => [t])]
    connections :=
      [{ source := Src.node 0, dest := 0, transform := idMat 1, synapse := 0 },
       { source := Src.pop 0, dest := 0, transform := idMat 1, synapse := mkRat 1 100 }]
    probes := [{ target := Src.pop 0, synapse := mkRat 1 100 }, { target := Src.node 0 }] }

/-- `demoNet` before any probe has been added (for the incremental
construction claim). -/
def demoNetNP : Network := { demoNet with probes := [] }

/-- The simulator built from `demoNet` with seed 7 (falling back to an
empty build if the build failed, which it does not). -/
def demoSim : Simulator :=
  match build demoNet 7 with
  | Except.ok s => s
  | Except.error _ => mkSim {} 0

/-- A network connecting a 2-D population to a 1-D population with an
identity transform — the spec's canonical dimension mismatch. -/
def net2D1D : Network :=
  { populations := [{ neuronCount := 1, dimension := 2 }, { neuronCount := 1, dimension := 1 }]
    connections := [{ source := Src.pop 0, dest := 1, transform := idMat 2, synapse := 0 }] }

/-- A network whose only node is built from a vector-valued function alone
(dimension inferred). -/
def netInferred : Network := { nodes := [mkNode (fun t => [t, qAdd t t])] }

/-- A concrete 2-sample, 1-neuron activity matrix for instantiating the
decoder-solve theorem. -/
def demoA : Mat := [[1], [2]]

/-- Concrete targets for the decoder solve at the two samples. -/
def demoY : Mat := [[1], [0]]

/-- The certified solution of the regularized least-squares problem for
`demoA`, `demoY` (extracted from `solveDec`). -/
def demoX : Mat :=
  match solveDec demoA demoY lamReg 1 with
  | some X => X
  | none => []

/-- A network with an ill-conditioned population (`neuron_count ≤
dimension`): builds with a warning, not an error. -/
def netIll : Network := { populations := [{ neuronCount := 1, dimension := 1 }] }

/-- The simulator built from `netIll` (falling back to an empty build if
the build failed, which it does not). -/
def illSim : Simulator :=
  match build netIll 3 with
  | Except.ok s => s
  | Except.error _ => mkSim {} 0

/-! ## General lemmas -/

set_option maxRecDepth 100000

theorem qAdd_eq (a b : ℚ) : qAdd a b = a + b := by
  unfold qAdd
  rw [Rat.mkRat_eq_div]
  push_cast
  conv_rhs => rw [← Rat.num_div_den a, ← Rat.num_div_den b]
  have ha : (a.den : ℚ) ≠ 0 := by positivity
  have hb : (b.den : ℚ) ≠ 0 := by positivity
  field_simp

theorem qSub_eq (a b : ℚ) : qSub a b = a - b := by
  unfold qSub
  rw [Rat.mkRat_eq_div]
  push_cast
  conv_rhs => rw [← Rat.num_div_den a, ← Rat.num_div_den b]
  have ha : (a.den : ℚ) ≠ 0 := by positivity
  have hb : (b.den : ℚ) ≠ 0 := by positivity
  field_simp
  ring

theorem qMul_eq (a b : ℚ) : qMul a b = a * b := by
  unfold qMul
  rw [Rat.mkRat_eq_div]
  push_cast
  conv_rhs => rw [← Rat.num_div_den a, ← Rat.num_div_den b]
  have ha : (a.den : ℚ) ≠ 0 := by positivity
  have hb : (b.den : ℚ) ≠ 0 := by positivity
  field_simp

theorem qDiv_eq (a b : ℚ) : qDiv a b = a / b := by
  unfold qDiv
  rw [Rat.divInt_eq_div]
  push_cast
  rcases eq_or_ne b 0 with hb | hb
  · subst hb; simp
  · have hbn : (b.num : ℚ) ≠ 0 := by simpa using Rat.num_ne_zero.mpr hb
    have ha : (a.den : ℚ) ≠ 0 := by positivity
    have hbd : (b.den : ℚ) ≠ 0 := by positivity
    conv_rhs => rw [← Rat.num_div_den a, ← Rat.num_div_den b]
    field_simp

/-- `natRound` agrees with rounding to the nearest integer, `⌊q + 1/2⌋`. -/
theorem natRound_eq (q : ℚ) : natRound q = (⌊q + 1 / 2⌋).toNat := by
  unfold natRound
  have hd : (q.den : ℚ) ≠ 0 := by positivity
  have h1 : q + 1 / 2 = ((2 * q.num + q.den : ℤ) : ℚ) / ((2 * q.den : ℕ) : ℚ) := by
    conv_lhs => rw [← Rat.num_div_den q]
    push_cast
    field_simp
    ring
  rw [h1, Rat.floor_intCast_div_natCast]
  push_cast
  rfl

theorem getD_map_range {α : Type _} (f : ℕ → α) {n i : ℕ} (h : i < n) (d : α) :
    ((List.range n).map f).getD i d = f i := by
  simp [List.getD_eq_getElem?_getD, List.getElem?_map, List.getElem?_range h]

theorem getD_replicate {α : Type _} (a : α) {n i : ℕ} (h : i < n) (d : α) :
    (List.replicate n a).getD i d = a := by
  simp [List.getD_eq_getElem?_getD, List.getElem?_replicate_of_lt h]

theorem getD_set_ne {α : Type _} (l : List α) {i j : ℕ} (h : i ≠ j) (v d : α) :
    (l.set i v).getD j d = l.getD j d := by
  simp [List.getD_eq_getElem?_getD, List.getElem?_set_ne h]

theorem getD_zipWith (f : ℚ → ℚ → ℚ) {a b : List ℚ} {i : ℕ}
    (ha : i < a.length) (hb : i < b.length) :
    (List.zipWith f a b).getD i 0 = f (a.getD i 0) (b.getD i 0) := by
  have hz : i < (List.zipWith f a b).length := by
    rw [List.length_zipWith]; omega
  simp [List.getD_eq_getElem?_getD, List.getElem?_eq_getElem, ha, hb, hz,
    List.getElem_zipWith]

theorem getD_map_q (g : ℚ → ℚ) {l : List ℚ} {i : ℕ} (h : i < l.length) :
    (l.map g).getD i 0 = g (l.getD i 0) := by
  have hm : i < (l.map g).length := by simpa using h
  simp [List.getD_eq_getElem?_getD, List.getElem?_eq_getElem, h, hm,
    List.getElem_map]

/-- The certified solver is sound: any solution it returns satisfies the
linear system it was asked to solve. -/
theorem linSolve_sound {M B X : Mat} (h : linSolve M B = some X) : matMul M X = B := by
  unfold linSolve at h
  rcases hg : gaussSolve M.length (List.zipWith (· ++ ·) M B) with _ | X'
  · rw [hg] at h; exact absurd h (by simp)
  · rw [hg] at h
    by_cases hc : matMul M X' = B
    · simp [hc] at h; exact h ▸ hc
    · simp [hc] at h

/-- Any decoder matrix returned by `solveDec` satisfies the normal
equations `(AᵀA + λ·I) X = Aᵀ Y` of the regularized least-squares problem
`minimize ‖Y - A·X‖² + λ‖X‖²`. -/
theorem solveDec_normalEq {A Y X : Mat} {lam : ℚ} {n : ℕ}
    (h : solveDec A Y lam n = some X) :
    matMul (matAdd (matMul (transposeM A) A) (matSmul lam (idMat n))) X
      = matMul (transposeM A) Y :=
  linSolve_sound h

theorem getD_map_lt {α β : Type _} (g : α → β) {l : List α} {i : ℕ}
    (h : i < l.length) (d : α) (e : β) :
    (l.map g).getD i e = g (l.getD i d) := by
  have hm : i < (l.map g).length := by simpa using h
  simp [List.getD_eq_getElem?_getD, List.getElem?_eq_getElem, h, hm,
    List.getElem_map]

theorem vAdd_length (u v : Vec) : (vAdd u v).length = min u.length v.length := by
  unfold vAdd
  exact List.length_zipWith _ _ _

theorem vSub_length (u v : Vec) : (vSub u v).length = min u.length v.length := by
  unfold vSub
  exact List.length_zipWith _ _ _

theorem vSmul_length (a : ℚ) (v : Vec) : (vSmul a v).length = v.length :=
  List.length_map _ _

theorem matVec_length (A : Mat) (x : Vec) : (matVec A x).length = A.length :=
  List.length_map _ _

theorem vAdd_getD {u v : Vec} {i : ℕ} (hu : i < u.length) (hv : i < v.length) :
    (vAdd u v).getD i 0 = u.getD i 0 + v.getD i 0 := by
  rw [vAdd, getD_zipWith _ hu hv, qAdd_eq]

theorem vSub_getD {u v : Vec} {i : ℕ} (hu : i < u.length) (hv : i < v.length) :
    (vSub u v).getD i 0 = u.getD i 0 - v.getD i 0 := by
  rw [vSub, getD_zipWith _ hu hv, qSub_eq]

theorem vSmul_getD (a : ℚ) {v : Vec} {i : ℕ} (hv : i < v.length) :
    (vSmul a v).getD i 0 = a * v.getD i 0 := by
  rw [vSmul, getD_map_q _ hv, qMul_eq]

theorem matVec_getD {A : Mat} (x : Vec) {i : ℕ} (h : i < A.length) :
    (matVec A x).getD i 0 = dotV (A.getD i []) x := by
  rw [matVec, getD_map_lt _ h []]

theorem dotV_eq_sum : ∀ {u v : Vec}, u.length = v.length →
    dotV u v = ∑ i ∈ Finset.range u.length, u.getD i 0 * v.getD i 0 := by
  intro u
  induction u with
  | nil => intro v _; simp [dotV]
  | cons a u ih =>
    intro v h
    cases v with
    | nil => exact absurd h (by simp)
    | cons b v =>
      have h' : u.length = v.length := by simpa using h
      show qAdd (qMul a b) (dotV u v) = _
      rw [qAdd_eq, qMul_eq, ih h']
      rw [List.length_cons, Finset.sum_range_succ']
      have he : ∀ i : ℕ, (a :: u).getD (i + 1) 0 * (b :: v).getD (i + 1) 0
          = u.getD i 0 * v.getD i 0 := fun i => rfl
      rw [Finset.sum_congr rfl (fun i _ => he i)]
      show a * b + _ = _ + (a :: u).getD 0 0 * (b :: v).getD 0 0
      rw [add_comm]
      rfl

theorem dotV_comm {u v : Vec} (h : u.length = v.length) : dotV u v = dotV v u := by
  rw [dotV_eq_sum h, dotV_eq_sum h.symm, h]
  exact Finset.sum_congr rfl (fun i _ => mul_comm _ _)

theorem dotV_self_nonneg (u : Vec) : 0 ≤ dotV u u := by
  rw [dotV_eq_sum rfl]
  exact Finset.sum_nonneg (fun i _ => mul_self_nonneg _)

theorem dotV_vAdd_left {u v w : Vec} (h1 : u.length = w.length)
    (h2 : v.length = w.length) :
    dotV (vAdd u v) w = dotV u w + dotV v w := by
  have hl : (vAdd u v).length = w.length := by
    rw [vAdd_length, h1, h2]; exact min_self _
  rw [dotV_eq_sum hl, dotV_eq_sum h1, dotV_eq_sum h2, hl, h1, h2,
    ← Finset.sum_add_distrib]
  refine Finset.sum_congr rfl (fun i hi => ?_)
  have hi' := Finset.mem_range.mp hi
  rw [vAdd_getD (by omega) (by omega)]
  ring

theorem dotV_vSub_left {u v w : Vec} (h1 : u.length = w.length)
    (h2 : v.length = w.length) :
    dotV (vSub u v) w = dotV u w - dotV v w := by
  have hl : (vSub u v).length = w.length := by
    rw [vSub_length, h1, h2]; exact min_self _
  rw [dotV_eq_sum hl, dotV_eq_sum h1, dotV_eq_sum h2, hl, h1, h2,
    ← Finset.sum_sub_distrib]
  refine Finset.sum_congr rfl (fun i hi => ?_)
  have hi' := Finset.mem_range.mp hi
  rw [vSub_getD (by omega) (by omega)]
  ring

theorem dotV_vSmul_left (a : ℚ) {u w : Vec} (h : u.length = w.length) :
    dotV (vSmul a u) w = a * dotV u w := by
  have hl : (vSmul a u).length = w.length := by rw [vSmul_length, h]
  rw [dotV_eq_sum hl, dotV_eq_sum h, hl, h, Finset.mul_sum]
  refine Finset.sum_congr rfl (fun i hi => ?_)
  have hi' := Finset.mem_range.mp hi
  rw [vSmul_getD _ (by omega)]
  ring

theorem dotV_vAdd_right {u v w : Vec} (h1 : u.length = w.length)
    (h2 : v.length = w.length) :
    dotV w (vAdd u v) = dotV w u + dotV w v := by
  have hl : (vAdd u v).length = w.length := by
    rw [vAdd_length, h1, h2]; exact min_self _
  rw [dotV_comm hl.symm, dotV_vAdd_left h1 h2, dotV_comm h1, dotV_comm h2]

theorem dotV_vSub_right {u v w : Vec} (h1 : u.length = w.length)
    (h2 : v.length = w.length) :
    dotV w (vSub u v) = dotV w u - dotV w v := by
  have hl : (vSub u v).length = w.length := by
    rw [vSub_length, h1, h2]; exact min_self _
  rw [dotV_comm hl.symm, dotV_vSub_left h1 h2, dotV_comm h1, dotV_comm h2]

theorem dotV_vSmul_right (a : ℚ) {u w : Vec} (h : u.length = w.length) :
    dotV w (vSmul a u) = a * dotV w u := by
  have hl : (vSmul a u).length = w.length := by rw [vSmul_length, h]
  rw [dotV_comm hl.symm, dotV_vSmul_left _ h, dotV_comm h]

theorem transposeM_getD (A : Mat) {j : ℕ} (hj : j < (A.headD []).length) :
    (transposeM A).getD j [] = A.map (fun r => r.getD j 0) := by
  rw [transposeM]
  exact getD_map_range _ hj _

theorem getD_eq_getElem_of_lt {α : Type _} {l : List α} {i : ℕ}
    (h : i < l.length) (d : α) : l.getD i d = l[i] := by
  simp [List.getD_eq_getElem?_getD, List.getElem?_eq_getElem h]

theorem getD_mem_of_lt {α : Type _} {l : List α} {i : ℕ}
    (h : i < l.length) (d : α) : l.getD i d ∈ l := by
  rw [getD_eq_getElem_of_lt h]
  exact List.getElem_mem h

/-- The transpose pairing: `⟨A·u, v⟩ = ⟨u, Aᵀ·v⟩` for a nonempty matrix with
uniform row length. -/
theorem dotV_matVec_adjoint {A : Mat} {N : ℕ} (hA : A ≠ [])
    (hrows : ∀ r ∈ A, r.length = N) {u v : Vec}
    (hu : u.length = N) (hv : v.length = A.length) :
    dotV (matVec A u) v = dotV u (matVec (transposeM A) v) := by
  have hhead : (A.headD []).length = N := by
    cases A with
    | nil => exact absurd rfl hA
    | cons r0 A' => exact hrows r0 (by simp)
  have htlen : (transposeM A).length = N := by
    rw [transposeM, List.length_map, List.length_range, hhead]
  have hL : dotV (matVec A u) v
      = ∑ i ∈ Finset.range A.length, ∑ j ∈ Finset.range N,
          (A.getD i []).getD j 0 * u.getD j 0 * v.getD i 0 := by
    rw [dotV_eq_sum (by rw [matVec_length, hv]), matVec_length]
    refine Finset.sum_congr rfl (fun i hi => ?_)
    have hi' := Finset.mem_range.mp hi
    rw [matVec_getD _ hi',
      dotV_eq_sum (by rw [hrows _ (getD_mem_of_lt hi' []), hu]),
      hrows _ (getD_mem_of_lt hi' []), Finset.sum_mul]
  have hR : dotV u (matVec (transposeM A) v)
      = ∑ j ∈ Finset.range N, ∑ i ∈ Finset.range A.length,
          u.getD j 0 * ((A.getD i []).getD j 0 * v.getD i 0) := by
    rw [dotV_eq_sum (by rw [matVec_length, htlen, hu]), hu]
    refine Finset.sum_congr rfl (fun j hj => ?_)
    have hj' := Finset.mem_range.mp hj
    rw [matVec_getD _ (by rw [htlen]; exact hj'),
      transposeM_getD A (by rw [hhead]; exact hj'),
      dotV_eq_sum (by rw [List.length_map, hv]), List.length_map,
      Finset.mul_sum]
    refine Finset.sum_congr rfl (fun i hi => ?_)
    have hi' := Finset.mem_range.mp hi
    rw [getD_map_lt _ hi' ([] : Vec)]
  rw [hL, hR, Finset.sum_comm]
  exact Finset.sum_congr rfl (fun j _ => Finset.sum_congr rfl (fun i _ => by ring))

/-- Residual decomposition: `y - A·x' = (y - A·x) + A·(x - x')`. -/
theorem residual_decomp {A : Mat} {N : ℕ} (hrows : ∀ r ∈ A, r.length = N)
    {y x x' : Vec} (hy : y.length = A.length) (hx : x.length = N)
    (hx' : x'.length = N) :
    vSub y (matVec A x') = vAdd (vSub y (matVec A x)) (matVec A (vSub x x')) := by
  have hL : (vSub y (matVec A x')).length = A.length := by
    rw [vSub_length, matVec_length, hy]; exact min_self _
  have hr : (vSub y (matVec A x)).length = A.length := by
    rw [vSub_length, matVec_length, hy]; exact min_self _
  have hR : (vAdd (vSub y (matVec A x)) (matVec A (vSub x x'))).length = A.length := by
    rw [vAdd_length, hr, matVec_length]; exact min_self _
  apply List.ext_getElem (by rw [hL, hR])
  intro i h1 h2
  rw [hL] at h1
  rw [← getD_eq_getElem_of_lt (by rw [hL]; exact h1) 0,
    ← getD_eq_getElem_of_lt (by rw [hR]; exact h1) 0]
  have hrow : (A.getD i []).length = N := hrows _ (getD_mem_of_lt h1 [])
  rw [vSub_getD (by omega) (by rw [matVec_length]; exact h1),
    vAdd_getD (by rw [hr]; exact h1) (by rw [matVec_length]; exact h1),
    vSub_getD (by omega) (by rw [matVec_length]; exact h1),
    matVec_getD _ h1, matVec_getD _ h1, matVec_getD _ h1,
    dotV_vSub_right (by rw [hx, hrow]) (by rw [hx', hrow])]
  ring

theorem vSub_vSub_self {x x' : Vec} (h : x.length = x'.length) :
    vSub x (vSub x x') = x' := by
  have hd : (vSub x x').length = x.length := by
    rw [vSub_length, h]; exact min_self _
  have hl : (vSub x (vSub x x')).length = x'.length := by
    rw [vSub_length, hd, ← h]; exact min_self _
  apply List.ext_getElem (by rw [hl])
  intro i h1 h2
  rw [hl] at h1
  rw [← getD_eq_getElem_of_lt (by rw [hl]; exact h1) 0,
    ← getD_eq_getElem_of_lt h1 0,
    vSub_getD (by omega) (by omega), vSub_getD (by omega) (by omega)]
  ring

/-- With `λ ≥ 0`, any point satisfying the normal equations
`Aᵀ(y - A·x) = λx` of the ridge-regularized least-squares problem is a
global minimizer of `‖y - A·x‖² + λ‖x‖²`. -/
theorem normalEq_minimizes {A : Mat} {N : ℕ} (hA : A ≠ [])
    (hrows : ∀ r ∈ A, r.length = N) {y x x' : Vec}
    (hy : y.length = A.length) (hx : x.length = N) (hx' : x'.length = N)
    {lam : ℚ} (hlam : 0 ≤ lam)
    (hne : matVec (transposeM A) (vSub y (matVec A x)) = vSmul lam x) :
    dotV (vSub y (matVec A x)) (vSub y (matVec A x)) + lam * dotV x x
      ≤ dotV (vSub y (matVec A x')) (vSub y (matVec A x')) + lam * dotV x' x' := by
  have hdlen : (vSub x x').length = N := by
    rw [vSub_length, hx, hx']; exact min_self _
  have hrlen : (vSub y (matVec A x)).length = A.length := by
    rw [vSub_length, matVec_length, hy]; exact min_self _
  have hAd : (matVec A (vSub x x')).length = A.length := matVec_length _ _
  have hdecomp := residual_decomp hrows hy hx hx'
  have hvadd : (vAdd (vSub y (matVec A x)) (matVec A (vSub x x'))).length
      = A.length := by
    rw [vAdd_length, hrlen, hAd]; omega
  have h1 : dotV (vSub y (matVec A x')) (vSub y (matVec A x'))
      = dotV (vSub y (matVec A x)) (vSub y (matVec A x))
        + 2 * dotV (vSub y (matVec A x)) (matVec A (vSub x x'))
        + dotV (matVec A (vSub x x')) (matVec A (vSub x x')) := by
    rw [hdecomp,
      dotV_vAdd_left (u := vSub y (matVec A x)) (v := matVec A (vSub x x'))
        (w := vAdd (vSub y (matVec A x)) (matVec A (vSub x x')))
        (hrlen.trans hvadd.symm) (hAd.trans hvadd.symm),
      dotV_vAdd_right (u := vSub y (matVec A x)) (v := matVec A (vSub x x'))
        (w := vSub y (matVec A x)) rfl (hAd.trans hrlen.symm),
      dotV_vAdd_right (u := vSub y (matVec A x)) (v := matVec A (vSub x x'))
        (w := matVec A (vSub x x')) (hrlen.trans hAd.symm) rfl,
      dotV_comm (u := matVec A (vSub x x')) (v := vSub y (matVec A x))
        (hAd.trans hrlen.symm)]
    ring
  have hcross : dotV (vSub y (matVec A x)) (matVec A (vSub x x'))
      = lam * dotV x (vSub x x') := by
    rw [dotV_comm (u := vSub y (matVec A x)) (v := matVec A (vSub x x'))
        (hrlen.trans hAd.symm),
      dotV_matVec_adjoint hA hrows hdlen hrlen, hne,
      dotV_vSmul_right lam (hx.trans hdlen.symm),
      dotV_comm (u := vSub x x') (v := x) (hdlen.trans hx.symm)]
  have hx'eq : x' = vSub x (vSub x x') :=
    (vSub_vSub_self (hx.trans hx'.symm)).symm
  have hxd : (vSub x (vSub x x')).length = N := by
    rw [vSub_length, hx, hdlen]; omega
  have h2 : dotV x' x' = dotV x x - 2 * dotV x (vSub x x')
      + dotV (vSub x x') (vSub x x') := by
    conv_lhs => rw [hx'eq]
    rw [dotV_vSub_left (u := x) (v := vSub x x') (w := vSub x (vSub x x'))
        (hx.trans hxd.symm) (hdlen.trans hxd.symm),
      dotV_vSub_right (u := x) (v := vSub x x') (w := x)
        rfl (hdlen.trans hx.symm),
      dotV_vSub_right (u := x) (v := vSub x x') (w := vSub x x')
        (hx.trans hdlen.symm) rfl,
      dotV_comm (u := vSub x x') (v := x) (hdlen.trans hx.symm)]
    ring
  have hq1 := dotV_self_nonneg (matVec A (vSub x x'))
  have hq2 := mul_nonneg hlam (dotV_self_nonneg (vSub x x'))
  rw [h1, hcross, h2]
  nlinarith [hq1, hq2]

/-! ## Step and run lemmas -/

theorem step_net (s : Simulator) : (step s).net = s.net := rfl

theorem step_dt (s : Simulator) : (step s).dt = s.dt := rfl

theorem step_connDec (s : Simulator) : (step s).connDec = s.connDec := rfl

theorem step_popDec (s : Simulator) : (step s).popDec = s.popDec := rfl

theorem step_time (s : Simulator) : (step s).time = s.time + 1 := rfl

theorem stepN_net : ∀ (n : ℕ) (s : Simulator), (stepN n s).net = s.net
  | 0, _ => rfl
  | n + 1, s => stepN_net n (step s)

theorem stepN_dt : ∀ (n : ℕ) (s : Simulator), (stepN n s).dt = s.dt
  | 0, _ => rfl
  | n + 1, s => stepN_dt n (step s)

theorem stepN_connDec : ∀ (n : ℕ) (s : Simulator), (stepN n s).connDec = s.connDec
  | 0, _ => rfl
  | n + 1, s => stepN_connDec n (step s)

theorem stepN_popDec : ∀ (n : ℕ) (s : Simulator), (stepN n s).popDec = s.popDec
  | 0, _ => rfl
  | n + 1, s => stepN_popDec n (step s)

theorem stepN_time : ∀ (n : ℕ) (s : Simulator), (stepN n s).time = s.time + n := by
  intro n
  induction n with
  | zero => intro s; rfl
  | succ n ih =>
    intro s
    show (stepN n (step s)).time = s.time + (n + 1)
    rw [ih (step s), step_time]
    omega

theorem step_probeData (s : Simulator) {q : ℕ} (h : q < s.net.probes.length) :
    (step s).probeData.getD q [] = s.probeData.getD q [] ++ [probeNext s q] := by
  show ((List.range s.net.probes.length).map
    (fun q => s.probeData.getD q [] ++ [probeNext s q])).getD q [] = _
  exact getD_map_range _ h _

theorem stepN_probeData_len :
    ∀ (n : ℕ) (s : Simulator) (q : ℕ), q < s.net.probes.length →
      ((stepN n s).probeData.getD q []).length = (s.probeData.getD q []).length + n := by
  intro n
  induction n with
  | zero => intro s q _; rfl
  | succ n ih =>
    intro s q h
    show ((stepN n (step s)).probeData.getD q []).length = _
    rw [ih (step s) q (by rw [step_net]; exact h), step_probeData s h]
    simp
    omega

theorem step_connState (s : Simulator) {c : ℕ} (h : c < s.net.connections.length) :
    (step s).connState.getD c [] = connNext s c := by
  show ((List.range s.net.connections.length).map (connNext s)).getD c [] = _
  exact getD_map_range _ h _

theorem step_probeState (s : Simulator) {q : ℕ} (h : q < s.net.probes.length) :
    (step s).probeState.getD q [] = probeNext s q := by
  show ((List.range s.net.probes.length).map (probeNext s)).getD q [] = _
  exact getD_map_range _ h _

theorem resetSim_net (s : Simulator) : (resetSim s).net = s.net := rfl

theorem resetSim_dt (s : Simulator) : (resetSim s).dt = s.dt := rfl

theorem resetSim_time (s : Simulator) : (resetSim s).time = 0 := rfl

theorem resetSim_probeData (s : Simulator) {q : ℕ} (h : q < s.net.probes.length) :
    (resetSim s).probeData.getD q [] = [] := by
  show (List.replicate s.net.probes.length []).getD q [] = _
  exact getD_replicate _ h _

theorem runT_pos {s : Simulator} {dur : ℚ} (h : 0 < dur) :
    runT s dur = (stepN (natRound (qDiv dur s.dt)) (resetSim s), none) := by
  unfold runT
  rw [if_neg (not_le.mpr h)]

theorem runT_nonpos {s : Simulator} {dur : ℚ} (h : dur ≤ 0) :
    runT s dur = (s, some RunError.invalidDuration) := by
  unfold runT
  rw [if_pos h]

theorem trange_len (s : Simulator) : (trange s).length = s.time := by
  simp [trange]

theorem trange_getD (s : Simulator) {i : ℕ} (h : i < s.time) :
    (trange s).getD i 0 = qMul ((i + 1 : ℕ) : ℚ) s.dt :=
  getD_map_range _ h _

/-! ## Build lemmas -/

theorem build_ok {net : Network} {seed : ℕ} {s : Simulator}
    (h : build net seed = Except.ok s) :
    popsOK net = true ∧ dimsOK net = true ∧ s = mkSim net seed := by
  unfold build at h
  cases hp : popsOK net with
  | false => rw [hp] at h; exact absurd h (by simp)
  | true =>
    rw [hp] at h
    cases hd : dimsOK net with
    | false => rw [hd] at h; simp at h
    | true =>
      rw [hd] at h
      simp at h
      exact ⟨rfl, rfl, h.symm⟩

theorem mkSim_dt (net : Network) (seed : ℕ) : (mkSim net seed).dt = mkRat 1 1000 := rfl

theorem mkSim_net (net : Network) (seed : ℕ) : (mkSim net seed).net = net := rfl

theorem build_dt {net : Network} {seed : ℕ} {s : Simulator}
    (h : build net seed = Except.ok s) : s.dt = mkRat 1 1000 := by
  rw [(build_ok h).2.2]; rfl

theorem dt_default_pos : (0 : ℚ) < mkRat 1 1000 := by decide

/-! ## Claims -/

/-- Claim C1: for every synaptic filter instance with time constant
`tau > 0`, one filter step applied to input `u` with previous state `y`
returns exactly `y + (dt/tau) * (u - y)` (componentwise); and for every
connection whose synapse time constant is 0, the value delivered to the
destination equals the transform matrix applied to the (one-step-delayed)
source output exactly, with no smoothing. -/
theorem claim1_filter_step_and_passthrough (tau dt : ℚ) (y u : Vec) (i : ℕ)
    (s : Simulator) (c : ℕ) :
    (0 < tau → i < y.length → u.length = y.length →
      (filterApply tau dt y u).getD i 0
        = y.getD i 0 + dt / tau * (u.getD i 0 - y.getD i 0))
    ∧ (c < s.net.connections.length →
        (s.net.connections.getD c defConn).synapse = 0 →
        (step s).connState.getD c []
          = matVec ((s.net.connections.getD c defConn).transform) (connSrcVal s c)) := by
  constructor
  · intro htau hy hlen
    have hne : tau ≠ 0 := ne_of_gt htau
    have hu : i < u.length := by omega
    unfold filterApply vAdd vSmul vSub
    rw [if_neg hne]
    rw [getD_zipWith _ hy (by simp [List.length_zipWith]; omega),
      getD_map_q _ (by rw [List.length_zipWith]; omega),
      getD_zipWith _ hu hy, qAdd_eq, qMul_eq, qSub_eq, qDiv_eq]
  · intro hc hsyn
    rw [step_connState s hc]
    unfold connNext
    rw [hsyn]
    unfold filterApply
    rw [if_pos rfl]
    rfl

/-- Claim C1 witness: the filter formula at `tau = 1`, `dt = 1/1000`,
`y = [0]`, `u = [1]`, index 0; and pass-through for `demoNet`'s
synapse-0 connection 0. -/
theorem claim1_witness :
    (filterApply 1 (mkRat 1 1000) [0] [1]).getD 0 0
      = ([0] : Vec).getD 0 0 + mkRat 1 1000 / 1 * (([1] : Vec).getD 0 0 - ([0] : Vec).getD 0 0)
    ∧ (step demoSim).connState.getD 0 []
      = matVec ((demoSim.net.connections.getD 0 defConn).transform) (connSrcVal demoSim 0) :=
  ⟨(claim1_filter_step_and_passthrough 1 (mkRat 1 1000) [0] [1] 0 demoSim 0).1
      (by decide) (by decide) rfl,
   (claim1_filter_step_and_passthrough 1 (mkRat 1 1000) [0] [1] 0 demoSim 0).2
      (by decide) rfl⟩

/-- Claim C2: after a completed `run(duration)` on a built simulator,
`trange` has length `round(duration/dt)` (= `⌊duration/dt + 1/2⌋`), has
constant consecutive spacing `dt`, is strictly increasing, and every probe
holds exactly one recorded vector per element of `trange`. -/
theorem claim2_trange_and_probe_alignment (net : Network) (seed : ℕ)
    (s s' : Simulator) (dur : ℚ)
    (hb : build net seed = Except.ok s) (hdur : 0 < dur)
    (hr : runT s dur = (s', none)) :
    (trange s').length = (⌊dur / s.dt + 1 / 2⌋).toNat
    ∧ (∀ i, i + 1 < (trange s').length →
        (trange s').getD (i + 1) 0 - (trange s').getD i 0 = s.dt)
    ∧ (∀ i, i + 1 < (trange s').length →
        (trange s').getD i 0 < (trange s').getD (i + 1) 0)
    ∧ (∀ q, q < s'.net.probes.length →
        (s'.probeData.getD q []).length = (trange s').length) := by
  have hs' : stepN (natRound (qDiv dur s.dt)) (resetSim s) = s' := by
    rw [runT_pos hdur] at hr
    exact congrArg Prod.fst hr
  have htime : s'.time = natRound (qDiv dur s.dt) := by
    rw [← hs', stepN_time, resetSim_time]
    omega
  have hdt : s'.dt = s.dt := by rw [← hs', stepN_dt, resetSim_dt]
  have hnet : s'.net = s.net := by rw [← hs', stepN_net, resetSim_net]
  have hlen : (trange s').length = natRound (qDiv dur s.dt) := by
    rw [trange_len, htime]
  have hspace : ∀ i, i + 1 < (trange s').length →
      (trange s').getD (i + 1) 0 - (trange s').getD i 0 = s.dt := by
    intro i hi
    rw [trange_len] at hi
    rw [trange_getD s' (by omega), trange_getD s' (by omega), qMul_eq, qMul_eq, hdt]
    push_cast
    ring
  refine ⟨by rw [hlen, natRound_eq, qDiv_eq], hspace, ?_, ?_⟩
  · intro i hi
    have hd := hspace i hi
    have hpos : (0 : ℚ) < s.dt := by rw [build_dt hb]; exact dt_default_pos
    linarith
  · intro q hq
    have hq2 : q < (resetSim s).net.probes.length := by
      rw [resetSim_net, ← hnet]; exact hq
    have := stepN_probeData_len (natRound (qDiv dur s.dt)) (resetSim s) q hq2
    rw [hs'] at this
    rw [this, resetSim_probeData s (by rw [resetSim_net] at hq2; exact hq2), hlen]
    simp

/-- Claim C2 witness: run `demoSim`'s network for one time unit. -/
theorem claim2_witness :
    (trange ((runT demoSim 1).1)).length = (⌊(1 : ℚ) / demoSim.dt + 1 / 2⌋).toNat
    ∧ (∀ q, q < ((runT demoSim 1).1).net.probes.length →
        (((runT demoSim 1).1).probeData.getD q []).length
          = (trange ((runT demoSim 1).1)).length) :=
  ⟨(claim2_trange_and_probe_alignment demoNet 7 demoSim ((runT demoSim 1).1) 1
      rfl (by decide) rfl).1,
   (claim2_trange_and_probe_alignment demoNet 7 demoSim ((runT demoSim 1).1) 1
      rfl (by decide) rfl).2.2.2⟩

/-- Claim C3: the whole build-and-run pipeline is a deterministic function
of (network, seed, duration): any two probe-data results obtained from the
same inputs are bit-identical. -/
theorem claim3_determinism (net : Network) (seed : ℕ) (dur : ℚ)
    (d1 d2 : List (List Vec))
    (h1 : pipelineData net seed dur = Except.ok d1)
    (h2 : pipelineData net seed dur = Except.ok d2) : d1 = d2 := by
  rw [h1] at h2
  exact Except.ok.inj h2

/-- Claim C3 witness: two runs of the pipeline on `demoNet` with seed 7 and
duration 1 yield the same data. -/
theorem claim3_witness :
    pipelineData demoNet 7 1 = Except.ok (((runT demoSim 1).1).probeData)
    ∧ ((runT demoSim 1).1).probeData = ((runT demoSim 1).1).probeData :=
  ⟨rfl, claim3_determinism demoNet 7 1 _ _ rfl rfl⟩

/-- Claim C4: a network containing a connection whose transform output
dimensionality differs from its destination's dimensionality fails at
`build` with `BuildError.dimMismatch` (given otherwise valid populations),
and `run` never raises a dimension-mismatch error. -/
theorem claim4_dim_mismatch_at_build (net : Network) (seed : ℕ)
    (s : Simulator) (dur : ℚ) :
    (popsOK net = true →
      (∃ c ∈ net.connections,
        c.transform.length ≠ (net.populations.getD c.dest defPop).dimension) →
      build net seed = Except.error BuildError.dimMismatch)
    ∧ (runT s dur).2 ≠ some RunError.dimMismatch := by
  constructor
  · intro hp hex
    rcases hex with ⟨c, hc, hne⟩
    have hd : dimsOK net = false := by
      unfold dimsOK
      rw [List.all_eq_false]
      exact ⟨c, hc, fun hcontra =>
        hne (by simp at hcontra
                rw [List.getD_eq_getElem?_getD]
                exact hcontra.1)⟩
    unfold build
    rw [hp, hd]
    rfl
  · unfold runT
    split <;> simp

/-- Claim C4 witness: `net2D1D` (2-D population → 1-D population with
identity transform) fails to build with a dimension mismatch, and a run on
`demoSim` reports no dimension error. -/
theorem claim4_witness :
    build net2D1D 5 = Except.error BuildError.dimMismatch
    ∧ (runT demoSim 1).2 ≠ some RunError.dimMismatch :=
  ⟨(claim4_dim_mismatch_at_build net2D1D 5 demoSim 1).1 (by decide)
      ⟨{ source := Src.pop 0, dest := 1, transform := idMat 2, synapse := 0 },
        by simp [net2D1D], by decide⟩,
   (claim4_dim_mismatch_at_build net2D1D 5 demoSim 1).2⟩

/-- Claim C5: a built simulator's decoder matrices are exactly the ones
solved at build time from the network description alone, they are never
modified by stepping or by a run, every decoder the certified solve
produces satisfies the normal equations of the regularized least-squares
problem `minimize ‖Y - A·X‖² + λ‖X‖²` — and any point satisfying those
normal equations (with `λ = 0.1 > 0`) is a global minimizer of that
objective — and a population with `neuron_count ≤ dimension` yields a
non-fatal `RuntimeNumericWarning` (the build still returns a simulator, as
`hb` itself shows). -/
theorem claim5_decoders_immutable_least_squares (net : Network) (seed : ℕ)
    (s : Simulator) (A Y X : Mat) (n : ℕ) (dur : ℚ)
    (hb : build net seed = Except.ok s) :
    s.connDec = (List.range net.connections.length).map
        (fun c => decForConn net seed (net.connections.getD c defConn))
    ∧ (∀ m, (stepN m s).connDec = s.connDec ∧ (stepN m s).popDec = s.popDec)
    ∧ ((runT s dur).1).connDec = s.connDec
    ∧ (solveDec A Y lamReg n = some X →
        matMul (matAdd (matMul (transposeM A) A) (matSmul lamReg (idMat n))) X
          = matMul (transposeM A) Y)
    ∧ (∀ p ∈ net.populations, p.neuronCount ≤ p.dimension →
        SimWarning.numeric ∈ s.warnings)
    ∧ (∀ (A2 : Mat) (N2 : ℕ) (y2 x2 x2' : Vec), A2 ≠ [] →
        (∀ r ∈ A2, r.length = N2) → y2.length = A2.length →
        x2.length = N2 → x2'.length = N2 →
        matVec (transposeM A2) (vSub y2 (matVec A2 x2)) = vSmul lamReg x2 →
        dotV (vSub y2 (matVec A2 x2)) (vSub y2 (matVec A2 x2)) + lamReg * dotV x2 x2
          ≤ dotV (vSub y2 (matVec A2 x2')) (vSub y2 (matVec A2 x2'))
            + lamReg * dotV x2' x2') := by
  have hs := (build_ok hb).2.2
  refine ⟨?_, ?_, ?_, ?_, ?_, ?_⟩
  · rw [hs]; rfl
  · intro m; exact ⟨stepN_connDec m s, stepN_popDec m s⟩
  · unfold runT
    split
    · rfl
    · show (stepN _ (resetSim s)).connDec = s.connDec
      rw [stepN_connDec]; rfl
  · exact fun h => solveDec_normalEq h
  · intro p hp hle
    have hw : s.warnings = buildWarnings net := by rw [hs]; rfl
    rw [hw]
    unfold buildWarnings
    rw [List.mem_filterMap]
    exact ⟨p, hp, by rw [if_pos hle]⟩
  · intro A2 N2 y2 x2 x2' hA2 hrows hy hx hx' hne
    exact normalEq_minimizes hA2 hrows hy hx hx' (by decide) hne

/-- Claim C5 witness: for `netIll` (one population, `N = D = 1`) the build
succeeds, decoders are immutable under stepping, the concrete solve for
`demoA`, `demoY` satisfies its normal equations, the numeric warning is
present, and the concrete solution `[10/51]` attains an objective no worse
than the competitor `[0]`. -/
theorem claim5_witness :
    (∀ m, (stepN m illSim).connDec = illSim.connDec)
    ∧ matMul (matAdd (matMul (transposeM demoA) demoA) (matSmul lamReg (idMat 1))) demoX
        = matMul (transposeM demoA) demoY
    ∧ SimWarning.numeric ∈ illSim.warnings
    ∧ dotV (vSub [1, 0] (matVec demoA [mkRat 10 51]))
          (vSub [1, 0] (matVec demoA [mkRat 10 51]))
        + lamReg * dotV [mkRat 10 51] [mkRat 10 51]
      ≤ dotV (vSub [1, 0] (matVec demoA [0])) (vSub [1, 0] (matVec demoA [0]))
        + lamReg * dotV [0] [0] :=
  ⟨fun m => ((claim5_decoders_immutable_least_squares netIll 3 illSim demoA demoY demoX 1 1
      rfl).2.1 m).1,
   (claim5_decoders_immutable_least_squares netIll 3 illSim demoA demoY demoX 1 1
      rfl).2.2.2.1 rfl,
   (claim5_decoders_immutable_least_squares netIll 3 illSim demoA demoY demoX 1 1
      rfl).2.2.2.2.1 { neuronCount := 1, dimension := 1 } (by simp [netIll]) (by decide),
   (claim5_decoders_immutable_least_squares netIll 3 illSim demoA demoY demoX 1 1
      rfl).2.2.2.2.2 demoA 1 [1, 0] [mkRat 10 51] [0] (by decide) (by decide) rfl rfl rfl
      (by decide)⟩

/-- Claim C6: within a timestep the evaluation respects the dependency
order — nodes are read at the current step's time, a population's drive for
the *next* step is exactly this step's connection outputs (one-step-delayed
feedback, so cycles are never evaluated as true cycles), connections read
this step's source values through their filters, and probes are appended
last, after everything they observe has been computed this step. -/
theorem claim6_dependency_order (s : Simulator) (p q c i : ℕ) :
    nodeValAt s i = (s.net.nodes.getD i defNode).output (stepTime s)
    ∧ popDrive s p = incomingSum s.net s.connState p
    ∧ popDrive (step s) p
        = incomingSum s.net ((List.range s.net.connections.length).map (connNext s)) p
    ∧ connNext s c
        = filterApply ((s.net.connections.getD c defConn).synapse) s.dt
            (s.connState.getD c [])
            (matVec ((s.net.connections.getD c defConn).transform) (connSrcVal s c))
    ∧ (q < s.net.probes.length →
        (step s).probeData.getD q [] = s.probeData.getD q [] ++ [probeNext s q]) :=
  ⟨rfl, rfl, rfl, rfl, fun h => step_probeData s h⟩

/-- Claim C6 witness: the dependency-order equations instantiated on
`demoSim` (whose network contains a recurrent connection, i.e. a cycle). -/
theorem claim6_witness :
    popDrive (step demoSim) 0
      = incomingSum demoSim.net
          ((List.range demoSim.net.connections.length).map (connNext demoSim)) 0
    ∧ (step demoSim).probeData.getD 0 []
        = demoSim.probeData.getD 0 [] ++ [probeNext demoSim 0] :=
  ⟨(claim6_dependency_order demoSim 0 0 0 0).2.2.1,
   (claim6_dependency_order demoSim 0 0 0 0).2.2.2.2 (by decide)⟩

/-- Claim C7: every synaptic filter's state is reset to the zero vector at
run start (a run steps from the reset state), is carried forward across
steps within a run (each step's new state is computed from that same
instance's previous state), and is held in a distinct per-instance slot —
updating one connection's slot never changes another's, and probe filters
live in a separate state list updated from their own previous state. -/
theorem claim7_filter_state_lifecycle (s : Simulator) (c c' q : ℕ) (v : Vec) (dur : ℚ) :
    (c < s.net.connections.length →
      (resetSim s).connState.getD c [] = zeroVec (connOutDim s.net c))
    ∧ (q < s.net.probes.length →
      (resetSim s).probeState.getD q []
        = zeroVec (srcDim s.net ((s.net.probes.getD q defProbe).target)))
    ∧ (0 < dur → runT s dur = (stepN (natRound (qDiv dur s.dt)) (resetSim s), none))
    ∧ (c < s.net.connections.length →
      (step s).connState.getD c []
        = filterApply ((s.net.connections.getD c defConn).synapse) s.dt
            (s.connState.getD c []) (connRaw s c))
    ∧ (q < s.net.probes.length →
      (step s).probeState.getD q []
        = filterApply ((s.net.probes.getD q defProbe).synapse) s.dt
            (s.probeState.getD q []) (probeVal s q))
    ∧ (c ≠ c' → (s.connState.set c v).getD c' [] = s.connState.getD c' []) := by
  refine ⟨?_, ?_, fun h => runT_pos h, ?_, ?_, fun h => getD_set_ne _ h _ _⟩
  · intro hc
    show ((List.range s.net.connections.length).map
      (fun c => zeroVec (connOutDim s.net c))).getD c [] = _
    exact getD_map_range _ hc _
  · intro hq
    show ((List.range s.net.probes.length).map
      (fun q => zeroVec (srcDim s.net ((s.net.probes.getD q defProbe).target)))).getD q [] = _
    exact getD_map_range _ hq _
  · intro hc
    rw [step_connState s hc]
    rfl
  · intro hq
    rw [step_probeState s hq]
    rfl

/-- Claim C7 witness: the filter-state lifecycle instantiated on `demoSim`
(two connection filters and two probe filters). -/
theorem claim7_witness :
    (resetSim demoSim).connState.getD 0 [] = zeroVec (connOutDim demoSim.net 0)
    ∧ (step demoSim).connState.getD 1 []
        = filterApply ((demoSim.net.connections.getD 1 defConn).synapse) demoSim.dt
            (demoSim.connState.getD 1 []) (connRaw demoSim 1)
    ∧ (demoSim.connState.set 0 [mkRat 1 2]).getD 1 [] = demoSim.connState.getD 1 [] :=
  ⟨(claim7_filter_state_lifecycle demoSim 0 1 0 [mkRat 1 2] 1).1 (by decide),
   (claim7_filter_state_lifecycle demoSim 1 0 0 [mkRat 1 2] 1).2.2.2.1 (by decide),
   (claim7_filter_state_lifecycle demoSim 0 1 0 [mkRat 1 2] 1).2.2.2.2.2 (by decide)⟩

/-- Claim C8: a positive duration that is not a multiple of the step size
is non-fatal — `run` rounds it to the nearest step count
(`⌊duration/dt + 1/2⌋` steps) and succeeds; a non-positive duration fails,
leaving all previously recorded probe data unchanged and not advancing
simulation time. -/
theorem claim8_duration_handling (s : Simulator) (dur : ℚ) :
    (dur ≤ 0 → runT s dur = (s, some RunError.invalidDuration)
      ∧ ((runT s dur).1).probeData = s.probeData
      ∧ ((runT s dur).1).time = s.time)
    ∧ (0 < dur → (runT s dur).2 = none
      ∧ ((runT s dur).1).time = natRound (qDiv dur s.dt))
    ∧ (0 < dur → ((runT s dur).1).time = (⌊dur / s.dt + 1 / 2⌋).toNat) := by
  refine ⟨?_, ?_, ?_⟩
  · intro h
    rw [runT_nonpos h]
    exact ⟨rfl, rfl, rfl⟩
  · intro h
    rw [runT_pos h]
    refine ⟨rfl, ?_⟩
    show (stepN _ (resetSim s)).time = _
    rw [stepN_time, resetSim_time]
    omega
  · intro h
    rw [runT_pos h]
    show (stepN _ (resetSim s)).time = _
    rw [stepN_time, resetSim_time, natRound_eq, qDiv_eq]
    omega

/-- Claim C8 witness: on `demoSim`, duration `3/2000` (one and a half
steps) rounds to 2 steps and succeeds; duration `-1` fails leaving data
and time untouched. -/
theorem claim8_witness :
    (runT demoSim (mkRat (-1) 1) = (demoSim, some RunError.invalidDuration)
      ∧ ((runT demoSim (mkRat (-1) 1)).1).probeData = demoSim.probeData
      ∧ ((runT demoSim (mkRat (-1) 1)).1).time = demoSim.time)
    ∧ ((runT demoSim (mkRat 3 2000)).2 = none
      ∧ ((runT demoSim (mkRat 3 2000)).1).time
          = natRound (qDiv (mkRat 3 2000) demoSim.dt)) :=
  ⟨(claim8_duration_handling demoSim (mkRat (-1) 1)).1 (by decide),
   (claim8_duration_handling demoSim (mkRat 3 2000)).2.1 (by decide)⟩

/-- Claim C9: a probe added to a network in a later construction scope
(after earlier scopes have exited, before any simulator is built) is part
of a simulator built afterwards, and a run records its data: the new probe
occupies the appended slot and holds one sample per completed step. -/
theorem claim9_incremental_construction (net : Network) (t : Src) (syn : ℚ)
    (seed : ℕ) (s s' : Simulator) (dur : ℚ)
    (hb : build (addProbe net t syn) seed = Except.ok s) (hdur : 0 < dur)
    (hr : runT s dur = (s', none)) :
    s'.net.probes.length = net.probes.length + 1
    ∧ (s'.probeData.getD net.probes.length []).length = natRound (qDiv dur s.dt)
    ∧ (s'.probeData.getD net.probes.length []).length = (trange s').length := by
  have hs' : stepN (natRound (qDiv dur s.dt)) (resetSim s) = s' := by
    rw [runT_pos hdur] at hr
    exact congrArg Prod.fst hr
  have hsnet : s.net = addProbe net t syn := by
    rw [(build_ok hb).2.2]; rfl
  have hnet : s'.net = addProbe net t syn := by
    rw [← hs', stepN_net, resetSim_net, hsnet]
  have hlen : s'.net.probes.length = net.probes.length + 1 := by
    rw [hnet]; simp [addProbe]
  have hq : net.probes.length < (resetSim s).net.probes.length := by
    rw [resetSim_net, hsnet]; simp [addProbe]
  have hdata : (s'.probeData.getD net.probes.length []).length
      = natRound (qDiv dur s.dt) := by
    rw [← hs', stepN_probeData_len _ (resetSim s) _ hq,
      resetSim_probeData s (by rw [resetSim_net] at hq; exact hq)]
    simp
  refine ⟨hlen, hdata, ?_⟩
  rw [hdata, trange_len, ← hs', stepN_time, resetSim_time]
  omega

/-- Claim C9 witness: adding a node probe to the probe-less `demoNetNP` in
a second construction step, then building and running for one time unit,
records a full time series for the new probe. -/
theorem claim9_witness :
    ((runT (mkSim (addProbe demoNetNP (Src.node 0) 0) 7) 1).1).net.probes.length
      = demoNetNP.probes.length + 1
    ∧ (((runT (mkSim (addProbe demoNetNP (Src.node 0) 0) 7) 1).1).probeData.getD
          demoNetNP.probes.length []).length
      = (trange ((runT (mkSim (addProbe demoNetNP (Src.node 0) 0) 7) 1).1)).length :=
  ⟨(claim9_incremental_construction demoNetNP (Src.node 0) 0 7
      (mkSim (addProbe demoNetNP (Src.node 0) 0) 7)
      ((runT (mkSim (addProbe demoNetNP (Src.node 0) 0) 7) 1).1) 1
      rfl (by decide) rfl).1,
   (claim9_incremental_construction demoNetNP (Src.node 0) 0 7
      (mkSim (addProbe demoNetNP (Src.node 0) 0) 7)
      ((runT (mkSim (addProbe demoNetNP (Src.node 0) 0) 7) 1).1) 1
      rfl (by decide) rfl).2.2⟩

/-- Claim C10: a node constructed from an output function alone infers its
dimension from the function's return value — a function returning a
length-`k` vector yields a `k`-dimensional node (so a scalar-returning
function yields a 1-dimensional node) — and downstream connections from
that node use the inferred dimension as their pre-transform
dimensionality. -/
theorem claim10_node_dim_inference (f : ℚ → Vec) (k : ℕ) (g : ℚ → ℚ)
    (net : Network) (i c : ℕ) (hf : ∀ t, (f t).length = k) :
    (mkNode f).dimension = k
    ∧ (mkNode (fun t => [g t])).dimension = 1
    ∧ (net.nodes.getD i defNode = mkNode f → srcDim net (Src.node i) = k)
    ∧ ((net.connections.getD c defConn).source = Src.node i →
        (net.connections.getD c defConn).fn = none →
        net.nodes.getD i defNode = mkNode f →
        connPreDim net (net.connections.getD c defConn) = k) := by
  refine ⟨hf 0, rfl, ?_, ?_⟩
  · intro h
    show (net.nodes.getD i defNode).dimension = k
    rw [h]
    exact hf 0
  · intro hsrc hfn h
    unfold connPreDim
    rw [hfn, hsrc]
    show (net.nodes.getD i defNode).dimension = k
    rw [h]
    exact hf 0

/-- Claim C10 witness: `netInferred`'s node is built from
`fun t => [t, t + t]` alone and has dimension 2; `fun t => [t]` gives
dimension 1. -/
theorem claim10_witness :
    (mkNode (fun t => [t, qAdd t t])).dimension = 2
    ∧ (mkNode (fun t => [(fun z => z) t])).dimension = 1
    ∧ srcDim netInferred (Src.node 0) = 2 :=
  ⟨(claim10_node_dim_inference (fun t => [t, qAdd t t]) 2 (fun z => z)
      netInferred 0 0 (fun _ => rfl)).1,
   (claim10_node_dim_inference (fun t => [t, qAdd t t]) 2 (fun z => z)
      netInferred 0 0 (fun _ => rfl)).2.1,
   (claim10_node_dim_inference (fun t => [t, qAdd t t]) 2 (fun z => z)
      netInferred 0 0 (fun _ => rfl)).2.2.1 rfl⟩

end NengoSpec
